import Mathlib

/-!
Verification of the OpenPos core against its specification.

This file shallowly embeds the three core components of the OpenPos
single-page application:

* the schema validator (`js/validator.js`: `validatePositionObject`,
  `validatePositionsArray`),
* the resilient fetch loop (`js/api.js`: `fetchOpenPositions`),
* the filter/sort engine and incremental render controller
  (`js/ui.js`: `_filterPositionsLogic`, `_sortPositionsLogic`,
  `renderNextBatch`, `renderPositions`).

JavaScript runtime values are modelled by the inductive type `JVal`.
The JS built-in coercions the code relies on (`String(...)`,
`Number(...)`, `parseFloat`, truthiness, `typeof`, `toLowerCase`,
`trim`, `includes`, `localeCompare`) are modelled by executable
functions below.  Deliberate simplifications of the JS built-ins, none
of which is exercised by the source's data: number-to-string rendering
is exact only for integral numbers; `Number(...)`
hexadecimal/exponent literals and single-element arrays are not
parsed; `toLowerCase` is ASCII-only; nested arrays stringify
shallowly; `localeCompare` is code-point order.  Every definition is
executable.
-/

namespace OpenPos

/-- Model of a JavaScript runtime value.  `nan` is kept separate from
`num` so that number coercions can fail the way `NaN` does. -/
inductive JVal where
  | str (s : String)
  | num (q : Rat)
  | nan
  | boolV (b : Bool)
  | null
  | undef
  | obj (fields : List (String × JVal))
  | arrV (elems : List JVal)
deriving Repr

/-- A JS object is modelled as an insertion-ordered association list. -/
abbrev JObj := List (String × JVal)

/-- JS property read on an object: first binding wins, absent keys give
`undefined`. -/
def getF : JObj → String → JVal
  | [], _ => JVal.undef
  | (k', v) :: rest, k => if k' == k then v else getF rest k

/-- JS property write on an object: an existing key keeps its position,
a new key is appended (JS insertion-order semantics). -/
def setF : JObj → String → JVal → JObj
  | [], k, v => [(k, v)]
  | (k', v') :: rest, k, v =>
      if k' == k then (k, v) :: rest else (k', v') :: setF rest k v

/-- The `typeof` operator for the modelled values. -/
def jsTypeof : JVal → String
  | .str _ => "string"
  | .num _ => "number"
  | .nan => "number"
  | .boolV _ => "boolean"
  | .null => "object"
  | .undef => "undefined"
  | .obj _ => "object"
  | .arrV _ => "object"

/-- The `String(q)` coercion for numbers; exact for integral values (the only
numbers the source's checks observe beyond non-emptiness). -/
def jsNumToString (q : Rat) : String :=
  if q.den = 1 then toString q.num else toString q

/-- Stringification of a value occurring inside an array join
(`null`/`undefined` render empty there); nested arrays are
approximated by the empty string. -/
def jsStringPrim : JVal → String
  | .str s => s
  | .num q => jsNumToString q
  | .nan => "NaN"
  | .boolV b => cond b "true" "false"
  | .null => ""
  | .undef => ""
  | .obj _ => "[object Object]"
  | .arrV _ => ""

/-- The JS `String(...)` coercion. -/
def jsString (v : JVal) : String :=
  match v with
  | .null => "null"
  | .undef => "undefined"
  | .arrV xs => String.intercalate "," (xs.map jsStringPrim)
  | v => jsStringPrim v

/-- JS truthiness. -/
def jsTruthy : JVal → Bool
  | .str s => s ≠ ""
  | .num q => q ≠ 0
  | .nan => false
  | .boolV b => b
  | .null => false
  | .undef => false
  | .obj _ => true
  | .arrV _ => true

/-- ASCII model of `toLowerCase`. -/
def jsToLower (s : String) : String := ⟨s.data.map Char.toLower⟩

/-- The `trim()` method: strip leading and trailing whitespace. -/
def jsTrim (s : String) : String :=
  ⟨((s.data.dropWhile Char.isWhitespace).reverse.dropWhile Char.isWhitespace).reverse⟩

/-- Decimal digit test. -/
def isDigitC (c : Char) : Bool := ('0' ≤ c) && (c ≤ '9')

/-- Numeric value of a digit string. -/
def digitsVal (cs : List Char) : Nat :=
  cs.foldl (fun a c => a * 10 + (c.toNat - 48)) 0

/-- Split an optional leading sign; returns (isNegative, rest). -/
def decSignSplit : List Char → (Bool × List Char)
  | '+' :: r => (false, r)
  | '-' :: r => (true, r)
  | r => (false, r)

/-- Rational value of a parsed decimal literal with integer part `ip`
and fraction part `fp`: `±(ip.fp) = ±(ip·10^k + fp) / 10^k`. -/
def decOfParts (neg : Bool) (ip fp : List Char) : Rat :=
  let n : Int := (digitsVal ip * 10 ^ fp.length + digitsVal fp : Nat)
  mkRat (if neg then -n else n) (10 ^ fp.length)

/-- Full-string decimal literal parse, as used by `Number(...)` on a
trimmed non-empty string (hex and exponent literals not modelled). -/
def numLit? (cs : List Char) : Option Rat :=
  let (neg, r1) := decSignSplit cs
  let ip := r1.takeWhile isDigitC
  let r2 := r1.drop ip.length
  match r2 with
  | [] => if ip.isEmpty then none else some (decOfParts neg ip [])
  | '.' :: fr =>
      if fr.all isDigitC && !(ip.isEmpty && fr.isEmpty) then
        some (decOfParts neg ip fr)
      else none
  | _ => none

/-- The `Number(s)` coercion on a string: empty-after-trim is `0`, otherwise a full
decimal literal; `none` models `NaN`. -/
def strToNum? (s : String) : Option Rat :=
  let t := jsTrim s
  if t = "" then some 0 else numLit? t.data

/-- The `Number(...)` coercion; `none` models `NaN`. -/
def jsToNum : JVal → Option Rat
  | .num q => some q
  | .nan => none
  | .boolV b => some (cond b 1 0)
  | .null => some 0
  | .undef => none
  | .str s => strToNum? s
  | .obj _ => none
  | .arrV [] => some 0
  | .arrV _ => none

/-- Longest-leading-decimal parse, as used by `parseFloat`. -/
def leadNum? (cs : List Char) : Option Rat :=
  let (neg, r1) := decSignSplit cs
  let ip := r1.takeWhile isDigitC
  let r2 := r1.drop ip.length
  match r2 with
  | '.' :: fr0 =>
      let fp := fr0.takeWhile isDigitC
      if ip.isEmpty && fp.isEmpty then none else some (decOfParts neg ip fp)
  | _ => if ip.isEmpty then none else some (decOfParts neg ip [])

/-- The `parseFloat(value)` built-in: the argument is stringified, leading
whitespace skipped, and the longest numeric prefix taken; no prefix
gives `NaN`. -/
def jsParseFloat (v : JVal) : JVal :=
  match leadNum? (jsTrim (jsString v)).data with
  | some q => JVal.num q
  | none => JVal.nan

/-- The validator's numeric-string test
`!isNaN(parseFloat(value)) && isFinite(value)` on a string `value`:
the whole string is a finite number and a numeric prefix exists.  For
the decimal literals modelled here this is equivalent to `Number(s)`
succeeding on a non-blank string. -/
def jsIsNumericStr (s : String) : Bool :=
  (strToNum? s).isSome && !(jsTrim s == "")

/-- JS `s || d` for strings (`d` when `s` is falsy, i.e. empty). -/
def jsStrOr (s d : String) : String := if s = "" then d else s

/-- Whether `needle` is a prefix of `hay` (character lists). -/
def listStarts : List Char → List Char → Bool
  | _, [] => true
  | [], _ :: _ => false
  | a :: as, b :: bs => a == b && listStarts as bs

/-- Whether `needle` occurs inside `hay` (character lists). -/
def listIncl : List Char → List Char → Bool
  | [], needle => listStarts [] needle
  | a :: t, needle => listStarts (a :: t) needle || listIncl t needle

/-- JS `hay.includes(needle)`. -/
def strIncludes (hay needle : String) : Bool := listIncl hay.data needle.data

/-- Lexicographic order on character lists (by code point). -/
def lexLE : List Char → List Char → Bool
  | [], _ => true
  | _ :: _, [] => false
  | a :: as, b :: bs => if a == b then lexLE as bs else decide (a < b)

/-- The string order used to model `localeCompare(...) <= 0`:
lexicographic by code point, which agrees with the default-locale
collation on the lowercase-ASCII symbol strings the application
handles. -/
def strLE (a b : String) : Bool := lexLE a.data b.data

/-! ## Schema validator (`js/validator.js`) -/

/-- One entry of `positionSchema`. -/
structure FieldSpec where
  type : String
  required : Bool
  enumValues : Option (List String) := none
deriving Repr

/-- The `positionSchema` object, in its insertion (iteration) order. -/
def positionSchema : List (String × FieldSpec) :=
  [("symbol", ⟨"string", true, none⟩),
   ("type", ⟨"string", true, some ["long", "short", "buy", "sell"]⟩),
   ("entryPrice", ⟨"number", true, none⟩),
   ("amount", ⟨"number", true, none⟩),
   ("baseAsset", ⟨"string", false, none⟩),
   ("quoteAsset", ⟨"string", false, none⟩),
   ("leverage", ⟨"number", false, none⟩),
   ("pnl", ⟨"number", false, none⟩),
   ("user", ⟨"string", false, none⟩),
   ("timestamp", ⟨"number", false, none⟩)]

/-- A validator error, carrying the translation key and its variables
(`validationErrorNotObject`, `validationErrorRequiredField`,
`validationErrorInvalidType`, `validationErrorInvalidEnumValue`). -/
inductive VErr where
  | notObject
  | requiredField (field : String)
  | invalidType (field expectedType actualType : String)
  | invalidEnumValue (field value allowed : String)
deriving DecidableEq, Repr

/-- Property read inside the validator's field loop (the subject is
known to be object-typed and non-null there; arrays have none of the
schema keys). -/
def fieldGet (v : JVal) (k : String) : JVal :=
  match v with
  | .obj o => getF o k
  | _ => JVal.undef

/-- The validator's missing/blank test
`value === undefined || value === null || String(value).trim() === ''`. -/
def isBlankVal (v : JVal) : Bool :=
  match v with
  | .undef => true
  | .null => true
  | v => jsTrim (jsString v) == ""

/-- The per-field checks of `validatePositionObject`: the required
check, then (for present non-blank values) the type check — where a
numeric string offered for a number field produces no error, that
branch being commented out in the source — then the enum check. -/
def checkField (position : JVal) (name : String) (spec : FieldSpec) : List VErr :=
  let value := fieldGet position name
  let requiredErrs :=
    if spec.required && isBlankVal value then [VErr.requiredField name] else []
  let presentErrs :=
    if !(isBlankVal value) then
      let typeErrs :=
        if jsTypeof value != spec.type then
          match value with
          | .str s =>
              if spec.type == "number" && jsIsNumericStr s then []
              else [VErr.invalidType name spec.type (jsTypeof value)]
          | _ => [VErr.invalidType name spec.type (jsTypeof value)]
        else []
      let enumErrs :=
        match spec.enumValues, value with
        | some allowed, .str s =>
            if !(allowed.contains (jsToLower s)) then
              [VErr.invalidEnumValue name s (String.intercalate ", " allowed)]
            else []
        | _, _ => []
      typeErrs ++ enumErrs
    else []
  requiredErrs ++ presentErrs

/-- Result of `validatePositionObject`. -/
structure VRes where
  isValid : Bool
  errors : List VErr
deriving Repr

/-- The function `validatePositionObject(position)`: non-objects (and `null`) get a
single `notObject` error; otherwise every schema field is checked and
the errors accumulate in schema order. -/
def validatePositionObject (position : JVal) : VRes :=
  match position with
  | .obj _ | .arrV _ =>
      let errors := (positionSchema.map (fun kv => checkField position kv.1 kv.2)).flatten
      { isValid := errors.isEmpty, errors := errors }
  | _ => { isValid := false, errors := [VErr.notObject] }

/-- A thrown JS runtime error (property access on `null`/`undefined`). -/
inductive JsErr where
  | typeError
deriving DecidableEq, Repr

/-- General JS property read, as performed outside the validator's
object guard: reading from `null` or `undefined` throws a `TypeError`;
reading a schema key from any other primitive gives `undefined`. -/
def jsGetProp : JVal → String → Except JsErr JVal
  | .null, _ => .error .typeError
  | .undef, _ => .error .typeError
  | .obj o, k => .ok (getF o k)
  | _, _ => .ok JVal.undef

/-- Modelled from the spec: the English rendering of the validator's
translated error messages.  The translation catalog (`lang/en.json`)
is not among the sources; templates follow spec §4.1/§8 ("required
field {f} missing", "invalid type: expected {type}, got {actualType}",
"invalid value {value}, allowed: {enumValues joined}", "not a valid
object"), with the field name included as the tests expect. -/
def renderVErr : VErr → String
  | .notObject => "not a valid object"
  | .requiredField f => "required field " ++ f ++ " missing"
  | .invalidType f e a => f ++ ": invalid type: expected " ++ e ++ ", got " ++ a
  | .invalidEnumValue f v allowed => f ++ ": invalid value " ++ v ++ ", allowed: " ++ allowed

/-- The defensive normalization applied to each accepted record by
`validatePositionsArray`: a shallow copy whose `entryPrice` and
`amount` are run through `parseFloat` when not already numbers (no
other field is touched).  Accepted records are always objects, so the
catch-all branch is unreachable on accepted inputs. -/
def coercePosition (position : JVal) : JVal :=
  match position with
  | .obj o =>
      let o1 :=
        if jsTypeof (getF o "entryPrice") != "number" then
          setF o "entryPrice" (jsParseFloat (getF o "entryPrice"))
        else o
      let o2 :=
        if jsTypeof (getF o1 "amount") != "number" then
          setF o1 "amount" (jsParseFloat (getF o1 "amount"))
        else o1
      JVal.obj o2
  | v => v

/-- The per-item error formatting of `validatePositionsArray`:
`"Position {index+1} ({symbol or Unknown Symbol}): {error}"`. -/
def formatItemErrors (idx : Nat) (label : String) (errs : List VErr) : List String :=
  errs.map (fun m => "Position " ++ toString (idx + 1) ++ " (" ++ label ++ "): " ++ renderVErr m)

/-- The body of `validatePositionsArray`'s `forEach`: accepted items
are coerced and collected; for rejected items the raw element's
`symbol` property is read (throwing on `null`/`undefined` elements)
and each item error is formatted and appended. -/
def processItems : List JVal → Nat → Except JsErr (List JVal × List String)
  | [], _ => .ok ([], [])
  | p :: rest, idx =>
      let r := validatePositionObject p
      if r.isValid then
        match processItems rest (idx + 1) with
        | .ok (vs, es) => .ok (coercePosition p :: vs, es)
        | .error e => .error e
      else
        match jsGetProp p "symbol" with
        | .error e => .error e
        | .ok symv =>
            let label := if jsTruthy symv then jsString symv else "Unknown Symbol"
            match processItems rest (idx + 1) with
            | .ok (vs, es) => .ok (vs, formatItemErrors idx label r.errors ++ es)
            | .error e => .error e

/-- Result of `validatePositionsArray`. -/
structure BatchRes where
  isValid : Bool
  validatedPositions : List JVal
  errors : List String
deriving Repr

/-- The function `validatePositionsArray(positionsData)`: non-arrays get the
`not an array` result; arrays always report `isValid := true` with the
accepted (coerced) items in input order and one formatted error string
per item error.  A thrown `TypeError` propagates out. -/
def validatePositionsArray (positionsData : JVal) : Except JsErr BatchRes :=
  match positionsData with
  | .arrV items =>
      match processItems items 0 with
      | .ok (vs, es) => .ok { isValid := true, validatedPositions := vs, errors := es }
      | .error e => .error e
  | _ => .ok { isValid := false, validatedPositions := [], errors := ["not an array"] }

/-- The non-throwing value of `position.symbol || 'Unknown Symbol'`
read off a non-`null`/non-`undefined` rejected element, used to state
the closed form of `validatePositionsArray`'s error list. -/
def symbolLabel (p : JVal) : String :=
  match p with
  | .obj o => if jsTruthy (getF o "symbol") then jsString (getF o "symbol") else "Unknown Symbol"
  | _ => "Unknown Symbol"

/-! ## Fetch with retry (`js/api.js`) -/

/-- The parsed body of a successful (2xx) HTTP response. -/
inductive RespBody where
  | jsonArr (records : List JVal)
  | jsonOther
  | notJson
deriving Repr

/-- What one network attempt produces: a response with a status and
body, or a network/timeout failure (a rejected `fetch`). -/
inductive Outcome where
  | resp (status : Nat) (body : RespBody)
  | netFail
deriving Repr

/-- The retryable error classes an attempt can end in (a thrown
client error is re-thrown instead of retried). -/
inductive AttemptError where
  | serverError (status : Nat)
  | networkError
  | malformedResponse
  | jsonParseError
deriving DecidableEq, Repr

/-- What `fetchOpenPositions` ultimately rejects with. -/
inductive FetchError where
  | clientError (status : Nat)
  | exhaustedRetries (last : AttemptError)
  | unexpectedState
deriving DecidableEq, Repr

/-- The retry loop of `fetchOpenPositions`.  `attempts` is the loop
counter, `waits` counts the `retryDelayMs` sleeps taken so far, and
`remaining` is the number of loop iterations the guard
`attempts < maxRetries` still allows (`maxRetries - attempts`); the
catch-block test `attempts + 1 >= maxRetries` is `remaining = 1`,
i.e. the predecessor `rem = 0`.  The `remaining = 0` base case is the
post-loop fallback throw. -/
def fetchGo (outcomes : Nat → Outcome) (attempts waits : Nat) :
    Nat → Except FetchError (List JVal) × Nat
  | 0 => (.error FetchError.unexpectedState, waits)
  | rem + 1 =>
      match outcomes attempts with
      | .resp status body =>
          if 200 ≤ status ∧ status ≤ 299 then
            match body with
            | .jsonArr records => (.ok records, waits)
            | .jsonOther =>
                if rem = 0 then (.error (.exhaustedRetries .malformedResponse), waits)
                else fetchGo outcomes (attempts + 1) (waits + 1) rem
            | .notJson =>
                if rem = 0 then (.error (.exhaustedRetries .jsonParseError), waits)
                else fetchGo outcomes (attempts + 1) (waits + 1) rem
          else if 500 ≤ status ∧ status ≤ 599 then
            if rem = 0 then (.error (.exhaustedRetries (.serverError status)), waits)
            else fetchGo outcomes (attempts + 1) (waits + 1) rem
          else
            (.error (.clientError status), waits)
      | .netFail =>
          if rem = 0 then (.error (.exhaustedRetries .networkError), waits)
          else fetchGo outcomes (attempts + 1) (waits + 1) rem

/-- The function `fetchOpenPositions(apiUrl, maxRetries)`, abstracted over the
transport: `outcomes n` is what the `n`-th attempt's `fetch` produces.
Returns the settled result together with the number of retry delays
awaited.  `maxRetries` is an integer, as in JS; the while guard
`attempts < maxRetries` admits exactly `max maxRetries 0` iterations. -/
def fetchOpenPositions (outcomes : Nat → Outcome) (maxRetries : Int) :
    Except FetchError (List JVal) × Nat :=
  fetchGo outcomes 0 0 maxRetries.toNat

/-- An attempt outcome the loop treats as retryable (anything caught
that is not flagged `isClientError`). -/
def retriableOutcome : Outcome → Bool
  | .netFail => true
  | .resp status body =>
      if 200 ≤ status ∧ status ≤ 299 then
        match body with
        | .jsonArr _ => false
        | _ => true
      else decide (500 ≤ status ∧ status ≤ 599)

/-! ## Filter/sort engine (`js/ui.js`)

`Array.prototype.sort` with a consistent comparator is specified to be
a stable sort by the comparator's preorder; it is embedded here as a
stable insertion sort `stableSortBy`, parameterized by the Boolean
relation `le a b` meaning "the comparator allows `a` at or before
`b`" (`cmp(a,b) <= 0`). -/

/-- Insert `a` into `l` before the first element `b` with `le a b`. -/
def insertLE (le : α → α → Bool) (a : α) : List α → List α
  | [] => [a]
  | b :: bs => if le a b then a :: b :: bs else b :: insertLE le a bs

/-- Stable sort by `le`: the unique stable reordering in which `le`
holds along the result whenever `le` is total and transitive. -/
def stableSortBy (le : α → α → Bool) : List α → List α
  | [] => []
  | x :: xs => insertLE le x (stableSortBy le xs)

/-- Sortedness with respect to a Boolean relation. -/
def SortedBy (le : α → α → Bool) (l : List α) : Prop :=
  l.Pairwise (fun a b => le a b = true)

/-- The function `_filterPositionsLogic(positions, filterTypeValue, searchTerm)`:
optional type filter (exact lowercase match on a truthy `type`), then
optional substring filter (truthy `symbol`, lowercased, containing the
search term). -/
def _filterPositionsLogic (positions : List JObj) (filterTypeValue searchTerm : String) :
    List JObj :=
  let filtered := positions
  let filtered :=
    if filterTypeValue ≠ "all" then
      filtered.filter (fun p =>
        jsTruthy (getF p "type") && (jsToLower (jsString (getF p "type")) == filterTypeValue))
    else filtered
  let filtered :=
    if searchTerm ≠ "" then
      filtered.filter (fun p =>
        jsTruthy (getF p "symbol") && strIncludes (jsToLower (jsString (getF p "symbol"))) searchTerm)
    else filtered
  filtered

/-- The symbol sort key `String(x.symbol) || ''`; the comparator
`(a, b) => keyA.localeCompare(keyB)` is modelled as `strLE` on these
keys. -/
def symKey (p : JObj) : String := jsStrOr (jsString (getF p "symbol")) ""

/-- The numeric sort key `Number(x.f) || 0` (`NaN` falls back to 0). -/
def numKey (p : JObj) (f : String) : Rat := (jsToNum (getF p f)).getD 0

/-- The function `_sortPositionsLogic(positions, sortValue)`: a switch over the
sort keys; each case is the stable `Array.prototype.sort` with the
corresponding comparator, the default case returns the copy
unchanged. -/
def _sortPositionsLogic (positions : List JObj) (sortValue : String) : List JObj :=
  if sortValue = "symbol-asc" then
    stableSortBy (fun a b => strLE (symKey a) (symKey b)) positions
  else if sortValue = "symbol-desc" then
    stableSortBy (fun a b => strLE (symKey b) (symKey a)) positions
  else if sortValue = "entryPrice-asc" then
    stableSortBy (fun a b => numKey a "entryPrice" ≤ numKey b "entryPrice") positions
  else if sortValue = "entryPrice-desc" then
    stableSortBy (fun a b => numKey b "entryPrice" ≤ numKey a "entryPrice") positions
  else if sortValue = "timestamp-desc" then
    stableSortBy (fun a b => numKey b "timestamp" ≤ numKey a "timestamp") positions
  else if sortValue = "timestamp-asc" then
    stableSortBy (fun a b => numKey a "timestamp" ≤ numKey b "timestamp") positions
  else positions

/-- The comparator preorder underlying `_sortPositionsLogic` for each
sort key (`true` on both sides for the pass-through default case). -/
def sortLE (sortValue : String) (a b : JObj) : Bool :=
  if sortValue = "symbol-asc" then strLE (symKey a) (symKey b)
  else if sortValue = "symbol-desc" then strLE (symKey b) (symKey a)
  else if sortValue = "entryPrice-asc" then numKey a "entryPrice" ≤ numKey b "entryPrice"
  else if sortValue = "entryPrice-desc" then numKey b "entryPrice" ≤ numKey a "entryPrice"
  else if sortValue = "timestamp-desc" then numKey b "timestamp" ≤ numKey a "timestamp"
  else if sortValue = "timestamp-asc" then numKey a "timestamp" ≤ numKey b "timestamp"
  else true

/-- The search preprocessing of `applyFilterAndRender`:
`symbolSearchElement.value.toLowerCase().trim()` feeds
`_filterPositionsLogic`. -/
def applyFilter (positions : List JObj) (filterTypeValue rawSearch : String) : List JObj :=
  _filterPositionsLogic positions filterTypeValue (jsTrim (jsToLower rawSearch))

/-- Modelled from the spec: the symbol sort key as the specification
describes it — "locale-aware string comparison on `symbol` (missing
treated as empty string)" — i.e. an absent `symbol` contributes the
empty string rather than its JS stringification. -/
def claimedSymKey (p : JObj) : String :=
  match getF p "symbol" with
  | .undef => ""
  | v => jsString v

/-- Modelled from the spec: ascending symbol sort under the
specification's reading of the key (`claimedSymKey`). -/
def claimedSymbolSortAsc (positions : List JObj) : List JObj :=
  stableSortBy (fun a b => strLE (claimedSymKey a) (claimedSymKey b)) positions

/-! ## Incremental render controller (`js/ui.js`) -/

/-- The constant `renderBatchSize`. -/
def renderBatchSize : Nat := 15

/-- The controller state: the current filtered+sorted list, the lazy
cursor `currentRenderIndex`, and the cards appended to the grid so
far. -/
structure RenderState where
  currentlyDisplayedPositions : List JObj
  currentRenderIndex : Nat
  grid : List JObj
deriving Repr

/-- The function `renderNextBatch()`: slice the next `renderBatchSize` items at the
cursor, append them to the grid, and advance the cursor by the number
actually rendered. -/
def renderNextBatch (s : RenderState) : RenderState :=
  let nextBatch := (s.currentlyDisplayedPositions.drop s.currentRenderIndex).take renderBatchSize
  { s with
      grid := s.grid ++ nextBatch,
      currentRenderIndex := s.currentRenderIndex + nextBatch.length }

/-- The function `renderPositions(positionsToDisplay)`: replace the display list,
reset the cursor to 0, clear the grid, and (for a non-empty list)
render the first batch. -/
def renderPositions (positionsToDisplay : List JObj) : RenderState :=
  let s : RenderState :=
    { currentlyDisplayedPositions := positionsToDisplay,
      currentRenderIndex := 0,
      grid := [] }
  if positionsToDisplay.isEmpty then s else renderNextBatch s

/-! ## Sample records used by witnesses and counterexamples -/

/-- A record whose required number field `entryPrice` arrives as the
non-empty numeric string `"50000"` and is otherwise fully valid. -/
def posNumStr : JObj :=
  [("symbol", JVal.str "BTCUSDT"), ("type", JVal.str "long"),
   ("entryPrice", JVal.str "50000"), ("amount", JVal.num 1)]

/-- A fully valid position record. -/
def posBTC : JObj :=
  [("symbol", JVal.str "BTCUSDT"), ("type", JVal.str "long"),
   ("entryPrice", JVal.num 50000), ("amount", JVal.num 1)]

/-- An invalid record: required `entryPrice` is missing. -/
def posADA : JObj :=
  [("symbol", JVal.str "ADAUSDT"), ("type", JVal.str "long"),
   ("amount", JVal.num 100)]

/-- A valid record whose optional `leverage` arrives as the numeric
string `"5"`. -/
def posLevStr : JObj :=
  [("symbol", JVal.str "ETHUSDT"), ("type", JVal.str "short"),
   ("entryPrice", JVal.num 3000), ("amount", JVal.num 10),
   ("leverage", JVal.str "5")]

/-- A record with the symbol `"apple"`, and a record with no symbol at
all, exercising the missing-symbol sort key. -/
def posApple : JObj := [("symbol", JVal.str "apple")]

/-! ## General lemmas about the embedding -/

theorem lexLE_total : ∀ x y : List Char, lexLE x y = true ∨ lexLE y x = true
  | [], _ => Or.inl rfl
  | _ :: _, [] => Or.inr rfl
  | a :: as, b :: bs => by
    by_cases hab : a = b
    · subst hab
      rcases lexLE_total as bs with h | h
      · exact Or.inl (by simpa [lexLE] using h)
      · exact Or.inr (by simpa [lexLE] using h)
    · rcases lt_or_gt_of_ne hab with hlt | hgt
      · exact Or.inl (by simp [lexLE, hab, hlt])
      · have hba : b ≠ a := fun h => hab h.symm
        exact Or.inr (by simp [lexLE, hba, hgt])

theorem lexLE_trans : ∀ x y z : List Char,
    lexLE x y = true → lexLE y z = true → lexLE x z = true
  | [], _, _, _, _ => rfl
  | _ :: _, [], _, h, _ => by simp [lexLE] at h
  | _ :: _, _ :: _, [], _, h => by simp [lexLE] at h
  | a :: as, b :: bs, c :: cs, h1, h2 => by
    by_cases hab : a = b <;> by_cases hbc : b = c
    · subst hab; subst hbc
      simp only [lexLE, beq_self_eq_true, if_pos] at h1 h2 ⊢
      exact lexLE_trans as bs cs h1 h2
    · subst hab
      simp only [lexLE, beq_iff_eq, if_neg hbc, decide_eq_true_eq] at h2
      simp [lexLE, hbc, h2]
    · subst hbc
      simp only [lexLE, beq_iff_eq, if_neg hab, decide_eq_true_eq] at h1
      simp [lexLE, hab, h1]
    · simp only [lexLE, beq_iff_eq, if_neg hab, if_neg hbc, decide_eq_true_eq] at h1 h2
      have hac : a < c := lt_trans h1 h2
      have hne : a ≠ c := ne_of_lt hac
      simp [lexLE, hne, hac]

theorem strLE_total (a b : String) : strLE a b = true ∨ strLE b a = true :=
  lexLE_total a.data b.data

theorem strLE_trans {a b c : String} (h1 : strLE a b = true) (h2 : strLE b c = true) :
    strLE a c = true :=
  lexLE_trans a.data b.data c.data h1 h2

/-- Membership in an insertion. -/
theorem mem_insertLE {le : α → α → Bool} {a x : α} :
    ∀ {l : List α}, x ∈ insertLE le a l → x = a ∨ x ∈ l
  | [], h => by simpa [insertLE] using h
  | b :: bs, h => by
    rw [insertLE] at h
    by_cases hab : le a b = true
    · rw [if_pos hab] at h
      rcases List.mem_cons.mp h with h1 | h2
      · exact Or.inl h1
      · exact Or.inr h2
    · rw [if_neg hab] at h
      rcases List.mem_cons.mp h with h1 | h2
      · exact Or.inr (h1 ▸ List.mem_cons_self b bs)
      · rcases mem_insertLE h2 with h3 | h4
        · exact Or.inl h3
        · exact Or.inr (List.mem_cons_of_mem b h4)

theorem sortedBy_insertLE (le : α → α → Bool)
    (trans : ∀ a b c, le a b = true → le b c = true → le a c = true)
    (total : ∀ a b, le a b = true ∨ le b a = true)
    (a : α) : ∀ {l : List α}, SortedBy le l → SortedBy le (insertLE le a l)
  | [], _ => by simp [insertLE, SortedBy]
  | b :: bs, h => by
    rw [SortedBy, List.pairwise_cons] at h
    obtain ⟨hb, hbs⟩ := h
    by_cases hab : le a b = true
    · rw [insertLE, if_pos hab, SortedBy, List.pairwise_cons]
      refine ⟨?_, List.pairwise_cons.mpr ⟨hb, hbs⟩⟩
      intro x hx
      rcases List.mem_cons.mp hx with hxb | hxs
      · exact hxb ▸ hab
      · exact trans a b x hab (hb x hxs)
    · rw [insertLE, if_neg hab, SortedBy, List.pairwise_cons]
      have hba : le b a = true := (total a b).resolve_left hab
      refine ⟨?_, sortedBy_insertLE le trans total a hbs⟩
      intro x hx
      rcases mem_insertLE hx with hxa | hxl
      · exact hxa ▸ hba
      · exact hb x hxl

/-- The sort output is sorted (for total transitive `le`). -/
theorem sortedBy_stableSortBy (le : α → α → Bool)
    (trans : ∀ a b c, le a b = true → le b c = true → le a c = true)
    (total : ∀ a b, le a b = true ∨ le b a = true) :
    ∀ l : List α, SortedBy le (stableSortBy le l)
  | [] => by simp [stableSortBy, SortedBy]
  | x :: xs =>
      sortedBy_insertLE le trans total x (sortedBy_stableSortBy le trans total xs)

/-- Sorting a sorted list is the identity. -/
theorem stableSortBy_of_sorted (le : α → α → Bool) :
    ∀ {l : List α}, SortedBy le l → stableSortBy le l = l
  | [], _ => rfl
  | x :: xs, h => by
    rw [SortedBy, List.pairwise_cons] at h
    obtain ⟨hx, hxs⟩ := h
    rw [stableSortBy, stableSortBy_of_sorted le hxs]
    cases xs with
    | nil => rfl
    | cons b bs => rw [insertLE, if_pos (hx b (List.mem_cons_self b bs))]

/-- Sorting is idempotent (for total transitive `le`). -/
theorem stableSortBy_idem (le : α → α → Bool)
    (trans : ∀ a b c, le a b = true → le b c = true → le a c = true)
    (total : ∀ a b, le a b = true ∨ le b a = true) (l : List α) :
    stableSortBy le (stableSortBy le l) = stableSortBy le l :=
  stableSortBy_of_sorted le (sortedBy_stableSortBy le trans total l)

theorem filter_insertLE_pos {le : α → α → Bool} {f : α → Bool} {a : α}
    (hfa : f a = true) (hmin : ∀ b, f b = true → le a b = true) :
    ∀ l : List α, (insertLE le a l).filter f = a :: l.filter f
  | [] => by simp [insertLE, hfa]
  | b :: bs => by
    rw [insertLE]
    by_cases hab : le a b = true
    · rw [if_pos hab, List.filter_cons, List.filter_cons, hfa]
      simp
    · rw [if_neg hab, List.filter_cons]
      cases hfb : f b with
      | true => exact absurd (hmin b hfb) hab
      | false =>
        rw [List.filter_cons, hfb]
        simpa using filter_insertLE_pos hfa hmin bs

theorem filter_insertLE_neg {le : α → α → Bool} {f : α → Bool} {a : α}
    (hfa : f a = false) :
    ∀ l : List α, (insertLE le a l).filter f = l.filter f
  | [] => by simp [insertLE, hfa]
  | b :: bs => by
    rw [insertLE]
    by_cases hab : le a b = true
    · rw [if_pos hab, List.filter_cons, hfa]
      simp
    · rw [if_neg hab, List.filter_cons, List.filter_cons]
      rw [filter_insertLE_neg hfa bs]

/-- Stability of the sort: the subsequence of elements selected by any
predicate that only picks mutually tied elements (for the comparator)
is left untouched. -/
theorem filter_stableSortBy {le : α → α → Bool} {f : α → Bool}
    (h : ∀ a b, f a = true → f b = true → le a b = true) :
    ∀ l : List α, (stableSortBy le l).filter f = l.filter f
  | [] => rfl
  | x :: xs => by
    rw [stableSortBy, List.filter_cons]
    cases hfx : f x with
    | true =>
      rw [filter_insertLE_pos hfx (fun b hb => h x b hfx hb) (stableSortBy le xs)]
      rw [filter_stableSortBy h xs]
      simp
    | false =>
      rw [filter_insertLE_neg hfx (stableSortBy le xs)]
      exact filter_stableSortBy h xs

/-- Everything is `SortedBy` the constantly-true relation. -/
theorem sortedBy_true (l : List α) : SortedBy (fun _ _ => true) l := by
  induction l with
  | nil => exact List.Pairwise.nil
  | cons x xs ih => exact List.pairwise_cons.mpr ⟨fun _ _ => rfl, ih⟩

theorem getF_setF_same (o : JObj) (k : String) (v : JVal) :
    getF (setF o k v) k = v := by
  induction o with
  | nil => simp [setF, getF]
  | cons kv rest ih =>
    obtain ⟨k', v'⟩ := kv
    by_cases h : k' == k
    · rw [setF, if_pos h, getF, if_pos (by simp)]
    · rw [setF, if_neg h, getF, if_neg h]
      exact ih

theorem getF_setF_ne (o : JObj) (k k' : String) (v : JVal) (h : k' ≠ k) :
    getF (setF o k v) k' = getF o k' := by
  induction o with
  | nil =>
    simp only [setF, getF]
    rw [if_neg]
    simp only [beq_iff_eq]
    exact fun hh => h hh.symm
  | cons kv rest ih =>
    obtain ⟨k0, v0⟩ := kv
    by_cases h0 : (k0 == k) = true
    · have hk0 : k0 = k := by simpa using h0
      subst hk0
      rw [setF, if_pos h0]
      have hne : ¬ ((k0 == k') = true) := by
        simp only [beq_iff_eq]
        exact fun hh => h hh.symm
      rw [getF, getF, if_neg hne, if_neg hne]
    · rw [setF, if_neg h0, getF, getF]
      by_cases h1 : (k0 == k') = true
      · rw [if_pos h1, if_pos h1]
      · rw [if_neg h1, if_neg h1]
        exact ih

/-- The fallback `s || ''` is the identity on strings. -/
theorem jsStrOr_empty (s : String) : jsStrOr s "" = s := by
  by_cases h : s = "" <;> simp [jsStrOr, h]

/-- A non-empty needle never occurs in the empty string. -/
theorem strIncludes_empty_hay {needle : String} (h : needle ≠ "") :
    strIncludes "" needle = false := by
  obtain ⟨cs⟩ := needle
  cases cs with
  | nil => exact absurd rfl h
  | cons c cs' => rfl

theorem sortLE_trans (k : String) (a b c : JObj)
    (h1 : sortLE k a b = true) (h2 : sortLE k b c = true) : sortLE k a c = true := by
  unfold sortLE at h1 h2 ⊢
  split_ifs at h1 h2 ⊢ <;>
    (try simp only [decide_eq_true_eq] at h1 h2 ⊢) <;>
    first
      | rfl
      | exact strLE_trans h1 h2
      | exact strLE_trans h2 h1
      | exact le_trans h1 h2
      | exact le_trans h2 h1

theorem sortLE_total (k : String) (a b : JObj) :
    sortLE k a b = true ∨ sortLE k b a = true := by
  unfold sortLE
  split_ifs <;>
    (try simp only [decide_eq_true_eq]) <;>
    first
      | exact Or.inl rfl
      | exact Or.inl trivial
      | exact strLE_total _ _
      | exact le_total _ _

/-- Each branch of `_sortPositionsLogic` is the stable sort by the
comparator preorder `sortLE` of its key (the default branch is the
stable sort by the constantly-true relation, which is the identity). -/
theorem sortPositionsLogic_eq (k : String) (L : List JObj) :
    _sortPositionsLogic L k = stableSortBy (sortLE k) L := by
  by_cases h1 : k = "symbol-asc"
  · subst h1; rfl
  by_cases h2 : k = "symbol-desc"
  · subst h2; rfl
  by_cases h3 : k = "entryPrice-asc"
  · subst h3; rfl
  by_cases h4 : k = "entryPrice-desc"
  · subst h4; rfl
  by_cases h5 : k = "timestamp-desc"
  · subst h5; rfl
  by_cases h6 : k = "timestamp-asc"
  · subst h6; rfl
  have hle : sortLE k = fun _ _ => true := by
    funext a b
    simp only [sortLE]
    rw [if_neg h1, if_neg h2, if_neg h3, if_neg h4, if_neg h5, if_neg h6]
  rw [_sortPositionsLogic]
  rw [if_neg h1, if_neg h2, if_neg h3, if_neg h4, if_neg h5, if_neg h6]
  rw [hle]
  exact (stableSortBy_of_sorted _ (sortedBy_true L)).symm

/-! ## Claim theorems -/

/-- C9: if `fetchOpenPositions` is called with `maxRetries ≤ 0`, the
while loop body never runs: no attempt is consulted and the call
rejects with the post-loop fallback `unexpectedState` error ("Exhausted
retries ... unexpected state"), after zero retry delays. -/
theorem c9_no_attempt_when_maxRetries_nonpos (outcomes : Nat → Outcome) (maxRetries : Int)
    (h : maxRetries ≤ 0) :
    fetchOpenPositions outcomes maxRetries = (.error FetchError.unexpectedState, 0) := by
  rw [fetchOpenPositions, Int.toNat_of_nonpos h]
  rfl

/-- Witness for C9 at `maxRetries = -1`. -/
theorem c9_no_attempt_when_maxRetries_nonpos_witness :
    fetchOpenPositions (fun _ => Outcome.netFail) (-1) =
      (.error FetchError.unexpectedState, 0) :=
  c9_no_attempt_when_maxRetries_nonpos (fun _ => Outcome.netFail) (-1) (by decide)

/-- C4: with `batchSize = 15` and a fresh 40-item display list
(cursor 0, grid cleared — the state `renderPositions` resets to before
its own first batch), the first `renderNextBatch` renders items 0–14
leaving the cursor at 15, the second renders items 15–29 leaving it at
30, the third renders items 30–39 leaving it at 40, and any further
call is a no-op: same state, no duplicate rendering, no error. -/
theorem c4_render_batches (L : List JObj) (hL : L.length = 40) :
    renderPositions L = renderNextBatch ⟨L, 0, []⟩ ∧
    renderNextBatch ⟨L, 0, []⟩ = ⟨L, 15, L.take 15⟩ ∧
    renderNextBatch ⟨L, 15, L.take 15⟩ = ⟨L, 30, L.take 30⟩ ∧
    renderNextBatch ⟨L, 30, L.take 30⟩ = ⟨L, 40, L⟩ ∧
    renderNextBatch ⟨L, 40, L⟩ = ⟨L, 40, L⟩ := by
  have hnil : L ≠ [] := by intro hn; rw [hn] at hL; simp at hL
  refine ⟨?_, ?_, ?_, ?_, ?_⟩
  · rw [renderPositions, if_neg (by simpa using hnil)]
  · rw [renderNextBatch]
    simp [renderBatchSize, List.length_take, hL]
  · rw [renderNextBatch]
    have hgrid : L.take 15 ++ (L.drop 15).take 15 = L.take 30 := by
      rw [← List.take_add]
    simp only [renderBatchSize, hgrid]
    simp [List.length_take, List.length_drop, hL]
  · rw [renderNextBatch]
    have hgrid : L.take 30 ++ (L.drop 30).take 15 = L := by
      rw [← List.take_add]
      exact List.take_of_length_le (by omega)
    simp only [renderBatchSize, hgrid]
    simp [List.length_take, List.length_drop, hL]
  · rw [renderNextBatch]
    have hdrop : L.drop 40 = [] := List.drop_eq_nil_of_le (by omega)
    simp [renderBatchSize, hdrop]

/-- Witness for C4 on a concrete 40-item list. -/
theorem c4_render_batches_witness :
    (List.replicate 40 ([] : JObj)).length = 40 ∧
    renderNextBatch ⟨List.replicate 40 ([] : JObj), 0, []⟩ =
      ⟨List.replicate 40 ([] : JObj), 15, (List.replicate 40 ([] : JObj)).take 15⟩ :=
  ⟨by decide, (c4_render_batches (List.replicate 40 ([] : JObj)) (by decide)).2.1⟩

/-- C5 counterexample: the claim says a record without a `symbol`
compares as the empty string under `symbol-asc`; in the code the key
is `String(a.symbol) || ''`, and `String(undefined)` is the truthy
string `"undefined"`, so a symbol-less record sorts after `"apple"`
while the spec's reading would sort it before. -/
theorem c5_counterexample :
    (_sortPositionsLogic [[], posApple] "symbol-asc").map (fun p => jsString (getF p "symbol")) =
      ["apple", "undefined"] ∧
    (claimedSymbolSortAsc [[], posApple]).map (fun p => jsString (getF p "symbol")) =
      ["undefined", "apple"] ∧
    symKey [] = "undefined" ∧ claimedSymKey [] = "" := by
  refine ⟨by decide, by decide, by decide, by decide⟩

/-- C5 amended: `symbol-asc`/`symbol-desc` sort by the locale
comparison on the key `String(x.symbol)` — the `|| ''` fallback is the
identity since `String(...)` output is non-empty here — so a record
without a `symbol` compares as the string `"undefined"`, not as the
empty string. -/
theorem c5_amended_symbol_sort_key :
    (∀ L : List JObj, _sortPositionsLogic L "symbol-asc" =
        stableSortBy (fun a b =>
          strLE (jsString (getF a "symbol")) (jsString (getF b "symbol"))) L) ∧
    (∀ L : List JObj, _sortPositionsLogic L "symbol-desc" =
        stableSortBy (fun a b =>
          strLE (jsString (getF b "symbol")) (jsString (getF a "symbol"))) L) ∧
    symKey [] = "undefined" := by
  have hkey : ∀ p : JObj, symKey p = jsString (getF p "symbol") :=
    fun p => jsStrOr_empty _
  have hfun : (fun a b : JObj => strLE (symKey a) (symKey b)) =
      (fun a b => strLE (jsString (getF a "symbol")) (jsString (getF b "symbol"))) := by
    funext a b
    rw [hkey, hkey]
  have hfun' : (fun a b : JObj => strLE (symKey b) (symKey a)) =
      (fun a b => strLE (jsString (getF b "symbol")) (jsString (getF a "symbol"))) := by
    funext a b
    rw [hkey, hkey]
  refine ⟨fun L => ?_, fun L => ?_, by decide⟩
  · show stableSortBy (fun a b => strLE (symKey a) (symKey b)) L = _
    rw [hfun]
  · show stableSortBy (fun a b => strLE (symKey b) (symKey a)) L = _
    rw [hfun']

/-- C8: the sort is stable — for every sort key, the subsequence of
elements tied under that key's comparator is exactly as in the input —
and consequently idempotent: `sort(sort(L,k),k) = sort(L,k)` for every
list `L` and every `sortValue` `k` (including unrecognized keys, where
the sort is the identity). -/
theorem c8_sort_stable_idempotent :
    (∀ (k : String) (L : List JObj) (a : JObj),
        (_sortPositionsLogic L k).filter (fun b => sortLE k a b && sortLE k b a) =
          L.filter (fun b => sortLE k a b && sortLE k b a)) ∧
    (∀ (k : String) (L : List JObj),
        _sortPositionsLogic (_sortPositionsLogic L k) k = _sortPositionsLogic L k) := by
  constructor
  · intro k L a
    rw [sortPositionsLogic_eq]
    apply filter_stableSortBy
    intro x y hx hy
    simp only [Bool.and_eq_true] at hx hy
    exact sortLE_trans k x a y hx.2 hy.1
  · intro k L
    rw [sortPositionsLogic_eq, sortPositionsLogic_eq]
    exact stableSortBy_idem (sortLE k) (sortLE_trans k) (sortLE_total k) L

/-- C6: with `typeFilter = "all"` and a search term that is non-empty
after the `toLowerCase().trim()` preprocessing, the pipeline keeps
exactly the records whose (string) symbol, lowercased, contains the
lowercased (trimmed) search term as a substring — case-insensitive on
both sides, so "btc" and "BTC" behave identically. -/
theorem c6_search_case_insensitive (ps : List JObj) (t : String)
    (hne : jsTrim (jsToLower t) ≠ "")
    (hsym : ∀ p ∈ ps, ∃ s, getF p "symbol" = JVal.str s) :
    applyFilter ps "all" t =
      ps.filter (fun p =>
        strIncludes (jsToLower (jsString (getF p "symbol"))) (jsTrim (jsToLower t))) := by
  simp only [applyFilter, _filterPositionsLogic]
  rw [if_neg (show ¬(("all" : String) ≠ "all") from fun hh => hh rfl)]
  rw [if_pos hne]
  apply List.filter_congr
  intro p hp
  obtain ⟨s, hs⟩ := hsym p hp
  rw [hs]
  by_cases h0 : s = ""
  · subst h0
    have hL : jsToLower (jsString (JVal.str "")) = "" := rfl
    rw [hL, strIncludes_empty_hay hne]
    simp [jsTruthy]
  · simp [jsTruthy, h0]

/-- Witness for C6: the uppercase search "BTC" matches `BTCUSDT`. -/
theorem c6_search_case_insensitive_witness :
    applyFilter [posBTC] "all" "BTC" = [posBTC] := by
  refine (c6_search_case_insensitive [posBTC] "BTC" (by decide) ?_).trans ?_
  · intro p hp
    rw [List.mem_singleton] at hp
    subst hp
    exact ⟨"BTCUSDT", rfl⟩
  · rfl

/-- The exhaustion behaviour of the retry loop when every attempt is a
2xx response whose parsed JSON body is not an array: each failing
attempt but the last waits once and retries, and the loop ends in
`ExhaustedRetries` wrapping `MalformedResponse`. -/
theorem fetchGo_all_malformed (outcomes : Nat → Outcome)
    (h : ∀ n, ∃ s, outcomes n = Outcome.resp s RespBody.jsonOther ∧ 200 ≤ s ∧ s ≤ 299) :
    ∀ rem a w, 0 < rem →
      fetchGo outcomes a w rem =
        (.error (.exhaustedRetries .malformedResponse), w + (rem - 1)) := by
  intro rem
  induction rem with
  | zero => intro a w h0; exact absurd h0 (lt_irrefl 0)
  | succ r ih =>
    intro a w _
    obtain ⟨s, ho, hs1, hs2⟩ := h a
    simp only [fetchGo, ho]
    rw [if_pos ⟨hs1, hs2⟩]
    by_cases hr : r = 0
    · subst hr
      rw [if_pos rfl]
      simp
    · rw [if_neg hr, ih (a + 1) (w + 1) (Nat.pos_of_ne_zero hr)]
      have harith : w + 1 + (r - 1) = w + (r + 1 - 1) := by omega
      rw [harith]

/-- C3: if every attempt of `fetchOpenPositions` succeeds over HTTP
but the parsed JSON body is not an array, every attempt is treated as
a retryable failure — the loop waits and retries `maxRetries - 1`
times rather than resolving — and the call ultimately rejects with
the exhaustion error wrapping `MalformedResponse`; it never resolves
with a non-array value, on the final attempt included. -/
theorem c3_malformed_retries_then_fails (outcomes : Nat → Outcome) (maxRetries : Int)
    (hmr : 1 ≤ maxRetries)
    (h : ∀ n, ∃ s, outcomes n = Outcome.resp s RespBody.jsonOther ∧ 200 ≤ s ∧ s ≤ 299) :
    fetchOpenPositions outcomes maxRetries =
      (.error (.exhaustedRetries .malformedResponse), maxRetries.toNat - 1) := by
  rw [fetchOpenPositions]
  simpa using fetchGo_all_malformed outcomes h maxRetries.toNat 0 0 (by omega)

/-- Witness for C3: three attempts, three malformed bodies, two
waits, terminal `ExhaustedRetries MalformedResponse`. -/
theorem c3_malformed_retries_then_fails_witness :
    fetchOpenPositions (fun _ => Outcome.resp 200 RespBody.jsonOther) 3 =
      (.error (.exhaustedRetries .malformedResponse), 2) :=
  c3_malformed_retries_then_fails (fun _ => Outcome.resp 200 RespBody.jsonOther) 3
    (by decide) (fun _ => ⟨200, rfl, by decide, by decide⟩)

/-- Reaching attempt `i` after `i` retryable failures and then seeing
a 4xx response terminates the loop at once with `ClientError` and no
further wait. -/
theorem fetchGo_client_4xx (outcomes : Nat → Outcome) (s : Nat) (body : RespBody)
    (hs4 : 400 ≤ s) (hs5 : s ≤ 499) :
    ∀ (i a w rem : Nat), i < rem →
      (∀ j, j < i → retriableOutcome (outcomes (a + j)) = true) →
      outcomes (a + i) = Outcome.resp s body →
      fetchGo outcomes a w rem = (.error (.clientError s), w + i) := by
  intro i
  induction i with
  | zero =>
    intro a w rem hrem hpre hout
    obtain ⟨r, rfl⟩ : ∃ r, rem = r + 1 := ⟨rem - 1, by omega⟩
    rw [Nat.add_zero] at hout
    simp only [fetchGo, hout]
    rw [if_neg (by omega), if_neg (by omega), Nat.add_zero]
  | succ i ih =>
    intro a w rem hrem hpre hout
    obtain ⟨r, rfl⟩ : ∃ r, rem = r + 1 := ⟨rem - 1, by omega⟩
    have hr0 : r ≠ 0 := by omega
    have h0 : retriableOutcome (outcomes a) = true := by
      have := hpre 0 (by omega)
      rwa [Nat.add_zero] at this
    have hrec : fetchGo outcomes (a + 1) (w + 1) r = (.error (.clientError s), w + 1 + i) := by
      apply ih (a + 1) (w + 1) r (by omega)
      · intro j hj
        have := hpre (j + 1) (by omega)
        rwa [show a + (j + 1) = a + 1 + j by omega] at this
      · rw [show a + 1 + i = a + (i + 1) by omega]
        exact hout
    have harith : w + 1 + i = w + (i + 1) := by omega
    cases ho : outcomes a with
    | netFail =>
      simp only [fetchGo, ho]
      simp [hr0, hrec, harith]
    | resp st bo =>
      rw [ho] at h0
      simp only [fetchGo, ho]
      by_cases h2xx : 200 ≤ st ∧ st ≤ 299
      · rw [if_pos h2xx]
        cases bo with
        | jsonArr recs => simp [retriableOutcome, h2xx] at h0
        | jsonOther => simp [hr0, hrec, harith]
        | notJson => simp [hr0, hrec, harith]
      · have h5xx : 500 ≤ st ∧ st ≤ 599 := by
          simp [retriableOutcome, h2xx] at h0
          exact h0
        rw [if_neg h2xx, if_pos h5xx]
        simp [hr0, hrec, harith]

/-- C7: whenever an attempt of `fetchOpenPositions` receives an HTTP
4xx response (after any run of retryable failures), the call fails on
that attempt with a terminal `ClientError`: no retry delay is added
beyond those already taken and no further attempt influences the
result, regardless of how many retries remain. -/
theorem c7_client_error_no_retry (outcomes : Nat → Outcome) (maxRetries : Int)
    (i s : Nat) (body : RespBody)
    (hi : (i : Int) < maxRetries) (hs4 : 400 ≤ s) (hs5 : s ≤ 499)
    (hpre : ∀ j, j < i → retriableOutcome (outcomes j) = true)
    (hout : outcomes i = Outcome.resp s body) :
    fetchOpenPositions outcomes maxRetries = (.error (.clientError s), i) := by
  rw [fetchOpenPositions]
  have := fetchGo_client_4xx outcomes s body hs4 hs5 i 0 0 maxRetries.toNat
    (by omega) (by simpa using hpre) (by simpa using hout)
  simpa using this

/-- Witness for C7: an immediate 404 with retries remaining gives a
terminal `ClientError` on the first attempt, zero waits. -/
theorem c7_client_error_no_retry_witness :
    fetchOpenPositions (fun _ => Outcome.resp 404 RespBody.notJson) 3 =
      (.error (.clientError 404), 0) :=
  c7_client_error_no_retry (fun _ => Outcome.resp 404 RespBody.notJson) 3 0 404
    RespBody.notJson (by decide) (by decide) (by decide)
    (fun j hj => absurd hj (Nat.not_lt_zero j)) rfl

/-- A non-empty numeric string in a number field produces no error at
all in that field's checks. -/
theorem checkField_numeric_str (p : JVal) (k : String) (spec : FieldSpec) (s : String)
    (hty : spec.type = "number") (henum : spec.enumValues = none)
    (hv : fieldGet p k = JVal.str s) (hnum : jsIsNumericStr s = true) :
    checkField p k spec = [] := by
  have hblank : isBlankVal (JVal.str s) = false := by
    unfold jsIsNumericStr at hnum
    simp only [Bool.and_eq_true, Bool.not_eq_true'] at hnum
    exact hnum.2
  simp only [checkField, hv, hblank, hty, henum, Bool.and_false, Bool.not_false]
  simp [jsTypeof, hnum]

/-- Every `invalidType` error reported by `checkField` carries the
checked field's name. -/
theorem invalidType_mem_field {p : JVal} {k : String} {spec : FieldSpec} {f e a : String}
    (h : VErr.invalidType f e a ∈ checkField p k spec) : f = k := by
  unfold checkField at h
  rcases List.mem_append.mp h with h | h
  · by_cases hc : (spec.required && isBlankVal (fieldGet p k)) = true
    · rw [if_pos hc] at h
      simp at h
    · rw [if_neg hc] at h
      simp at h
  · by_cases hc : (!(isBlankVal (fieldGet p k))) = true
    · rw [if_pos hc] at h
      rcases List.mem_append.mp h with h | h
      · by_cases ht : (jsTypeof (fieldGet p k) != spec.type) = true
        · rw [if_pos ht] at h
          cases hval : fieldGet p k <;> rw [hval] at h <;>
            (try split_ifs at h) <;> simp_all
        · rw [if_neg ht] at h
          simp at h
      · cases henum : spec.enumValues <;> rw [henum] at h
        · cases hval : fieldGet p k <;> rw [hval] at h <;> simp_all
        · cases hval : fieldGet p k <;> rw [hval] at h <;>
            (try split_ifs at h) <;> simp_all
    · rw [if_neg hc] at h
      simp at h

/-- C1 counterexample: the record with `entryPrice: "50000"` (a
non-empty numeric string in a number field) and otherwise valid
fields is accepted with no error at all — in particular no
"invalid type" error — contradicting the claim that numeric strings
fail the type check. -/
theorem c1_counterexample :
    (validatePositionObject (JVal.obj posNumStr)).isValid = true ∧
    (validatePositionObject (JVal.obj posNumStr)).errors = [] := by
  exact ⟨by decide, by decide⟩

/-- C1 amended: a field declared as number (`entryPrice`, `amount`,
`leverage`, `pnl`, or `timestamp`) that is present as a non-empty
numeric string produces no "invalid type" error: the strict branch is
commented out in the source, so numeric strings silently pass the
type check (they are not coerced here); only non-numeric values fail
it. -/
theorem c1_amended_numeric_string_passes (p : JObj) (f s e a : String)
    (hf : f = "entryPrice" ∨ f = "amount" ∨ f = "leverage" ∨ f = "pnl" ∨ f = "timestamp")
    (hv : getF p f = JVal.str s)
    (hnum : jsIsNumericStr s = true) :
    VErr.invalidType f e a ∉ (validatePositionObject (JVal.obj p)).errors := by
  intro hmem
  simp only [validatePositionObject, positionSchema, List.map_cons, List.map_nil,
    List.flatten_cons, List.flatten_nil, List.append_nil, List.mem_append] at hmem
  rcases hf with rfl | rfl | rfl | rfl | rfl <;>
    rcases hmem with h | h | h | h | h | h | h | h | h | h <;>
      first
        | exact absurd (invalidType_mem_field h) (by decide)
        | (rw [checkField_numeric_str (JVal.obj p) _ _ s rfl rfl hv hnum] at h
           exact absurd h (List.not_mem_nil _))

/-- Witness for C1 amended, at the claim's own example
`entryPrice: "50000"` with expected type `number`, actual `string`. -/
theorem c1_amended_numeric_string_passes_witness :
    VErr.invalidType "entryPrice" "number" "string" ∉
      (validatePositionObject (JVal.obj posNumStr)).errors :=
  c1_amended_numeric_string_passes posNumStr "entryPrice" "50000" "number" "string"
    (Or.inl rfl) rfl rfl

/-- C10: the normalization of an accepted record touches only
`entryPrice` and `amount`; reading any other key of the returned copy
gives exactly the input's value, so an optional numeric field
(`leverage`, `pnl`, `timestamp`) supplied as a numeric string is
returned still as that string. -/
theorem c10_coerce_only_entryPrice_amount :
    (∀ (o : JObj) (k : String), k ≠ "entryPrice" → k ≠ "amount" →
        fieldGet (coercePosition (JVal.obj o)) k = getF o k) ∧
    (∀ (o : JObj) (k : String), (k = "leverage" ∨ k = "pnl" ∨ k = "timestamp") →
        ∀ s : String, getF o k = JVal.str s →
          fieldGet (coercePosition (JVal.obj o)) k = JVal.str s) := by
  have hframe : ∀ (o : JObj) (k : String), k ≠ "entryPrice" → k ≠ "amount" →
      fieldGet (coercePosition (JVal.obj o)) k = getF o k := by
    intro o k h1 h2
    simp only [coercePosition, fieldGet]
    by_cases c1 : (jsTypeof (getF o "entryPrice") != "number") = true
    · rw [if_pos c1]
      by_cases c2 : (jsTypeof (getF (setF o "entryPrice" (jsParseFloat (getF o "entryPrice")))
          "amount") != "number") = true
      · rw [if_pos c2, getF_setF_ne _ _ _ _ h2, getF_setF_ne _ _ _ _ h1]
      · rw [if_neg c2, getF_setF_ne _ _ _ _ h1]
    · rw [if_neg c1]
      by_cases c2 : (jsTypeof (getF o "amount") != "number") = true
      · rw [if_pos c2, getF_setF_ne _ _ _ _ h2]
      · rw [if_neg c2]
  refine ⟨hframe, ?_⟩
  intro o k hk s hs
  have h1 : k ≠ "entryPrice" := by rcases hk with rfl | rfl | rfl <;> decide
  have h2 : k ≠ "amount" := by rcases hk with rfl | rfl | rfl <;> decide
  rw [hframe o k h1 h2, hs]

/-- Witness for C10: a record with `leverage: "5"` keeps the string
after normalization. -/
theorem c10_coerce_only_entryPrice_amount_witness :
    fieldGet (coercePosition (JVal.obj posLevStr)) "leverage" = JVal.str "5" :=
  c10_coerce_only_entryPrice_amount.2 posLevStr "leverage" (Or.inl rfl) "5" rfl

/-- C2 counterexample: on the array `[null]` — an array input whose
element is `null` — `validatePositionsArray` does not return a result
at all: formatting the item error reads `position.symbol` on `null`,
which throws a `TypeError`, contradicting the claim that every array
input yields `isValid = true` with per-item errors. -/
theorem c2_counterexample :
    validatePositionsArray (JVal.arrV [JVal.null]) = .error JsErr.typeError := rfl

/-- One step of the `forEach` (the `let r` zeta-reduced). -/
theorem processItems_cons (p : JVal) (rest : List JVal) (i : Nat) :
    processItems (p :: rest) i =
      if (validatePositionObject p).isValid then
        match processItems rest (i + 1) with
        | .ok (vs, es) => .ok (coercePosition p :: vs, es)
        | .error e => .error e
      else
        match jsGetProp p "symbol" with
        | .error e => .error e
        | .ok symv =>
            let label := if jsTruthy symv then jsString symv else "Unknown Symbol"
            match processItems rest (i + 1) with
            | .ok (vs, es) =>
                .ok (vs, formatItemErrors i label (validatePositionObject p).errors ++ es)
            | .error e => .error e := rfl

set_option maxRecDepth 8192 in
/-- Closed form of the `forEach` over the items when no element is
`null`/`undefined` (so the error formatting cannot throw). -/
theorem processItems_closed (xs : List JVal) :
    ∀ i : Nat, (∀ p ∈ xs, p ≠ JVal.null ∧ p ≠ JVal.undef) →
      processItems xs i = .ok
        ((xs.filter (fun p => (validatePositionObject p).isValid)).map coercePosition,
         (List.enumFrom i xs).flatMap (fun ip =>
           if (validatePositionObject ip.2).isValid then []
           else formatItemErrors ip.1 (symbolLabel ip.2) (validatePositionObject ip.2).errors)) := by
  induction xs with
  | nil => intro i _; simp [processItems, List.enumFrom]
  | cons p rest ih =>
    intro i h
    have hp := h p (List.mem_cons_self p rest)
    have hrest : ∀ q ∈ rest, q ≠ JVal.null ∧ q ≠ JVal.undef :=
      fun q hq => h q (List.mem_cons_of_mem p hq)
    by_cases hvalid : (validatePositionObject p).isValid = true
    · rw [processItems_cons, if_pos hvalid, ih (i + 1) hrest]
      simp [List.enumFrom, hvalid, List.filter_cons]
    · rw [processItems_cons, if_neg hvalid, ih (i + 1) hrest]
      cases p with
      | null => exact absurd rfl hp.1
      | undef => exact absurd rfl hp.2
      | str s =>
        simp [jsGetProp, jsTruthy, List.enumFrom, hvalid, List.filter_cons, symbolLabel]
      | num q =>
        simp [jsGetProp, jsTruthy, List.enumFrom, hvalid, List.filter_cons, symbolLabel]
      | nan =>
        simp [jsGetProp, jsTruthy, List.enumFrom, hvalid, List.filter_cons, symbolLabel]
      | boolV b =>
        simp [jsGetProp, jsTruthy, List.enumFrom, hvalid, List.filter_cons, symbolLabel]
      | obj o =>
        simp [jsGetProp, jsTruthy, List.enumFrom, hvalid, List.filter_cons, symbolLabel]
      | arrV es =>
        simp [jsGetProp, jsTruthy, List.enumFrom, hvalid, List.filter_cons, symbolLabel]

/-- C2 amended: for every array input none of whose elements is
`null` or `undefined`, `validatePositionsArray` returns
`isValid = true`, `validatedPositions` holding exactly the items
accepted by `validatePositionObject` in input order (after the
entryPrice/amount normalization), and one error string per item error
formatted as `"Position {index+1} ({symbol or Unknown Symbol}):
{error}"`; invalid items are excluded without failing the batch.  An
array containing `null` (or `undefined`) instead throws a
`TypeError`. -/
theorem c2_amended_batch_shape (xs : List JVal)
    (h : ∀ p ∈ xs, p ≠ JVal.null ∧ p ≠ JVal.undef) :
    validatePositionsArray (JVal.arrV xs) = .ok
      { isValid := true,
        validatedPositions :=
          (xs.filter (fun p => (validatePositionObject p).isValid)).map coercePosition,
        errors := (List.enumFrom 0 xs).flatMap (fun ip =>
          if (validatePositionObject ip.2).isValid then []
          else formatItemErrors ip.1 (symbolLabel ip.2) (validatePositionObject ip.2).errors) } := by
  show (match processItems xs 0 with
    | Except.ok (vs, es) =>
        Except.ok { isValid := true, validatedPositions := vs, errors := es }
    | Except.error e => Except.error e : Except JsErr BatchRes) = _
  rw [processItems_closed xs 0 h]

/-- Witness for C2 amended: a valid and an invalid record; the valid
one is kept (in order), the invalid one contributes exactly its
formatted error. -/
theorem c2_amended_batch_shape_witness :
    validatePositionsArray (JVal.arrV [JVal.obj posBTC, JVal.obj posADA]) = .ok
      { isValid := true,
        validatedPositions := [JVal.obj posBTC],
        errors := ["Position 2 (ADAUSDT): required field entryPrice missing"] } := by
  refine (c2_amended_batch_shape [JVal.obj posBTC, JVal.obj posADA] ?_).trans ?_
  · intro p hp
    rcases List.mem_cons.mp hp with rfl | hp
    · exact ⟨(fun hh => nomatch hh), (fun hh => nomatch hh)⟩
    rcases List.mem_cons.mp hp with rfl | hp
    · exact ⟨(fun hh => nomatch hh), (fun hh => nomatch hh)⟩
    · exact absurd hp (List.not_mem_nil p)
  · rfl

end OpenPos
